import Mathlib

/-!
Verification of the reqman core (src/reqman/src/index.ts): schema validation,
embedded-metadata versioning, typed field coercion, record persistence and
filtering.  The persisted TOML document is modelled as the association list
the external TOML codec produces (the codec itself, `@iarna/toml`, is a
dependency, not repository code; it is modelled as an exact serialize/parse
inverse, so persistence passes the parsed document through).  Host primitives
(`JSON.parse`, `Number`) are passed in as explicit function parameters; the
host `Date` arithmetic, which the date validator observes directly, is
modelled from the ECMAScript specification of `Date.UTC` and the `getUTC*`
accessors.
-/

namespace Reqman

/-- Field types of the schema, the closed set in FIELD_TYPES (index.ts line 19). -/
inductive FieldType where
  | number
  | text
  | boolean
  | date
  | time
  | choice
deriving DecidableEq, Repr

/-- A validated field of the schema (index.ts lines 21-27). -/
structure FieldSchema where
  name : String
  type : FieldType
  label : Option String
  required : Option Bool
  options : Option (List String)
deriving DecidableEq, Repr

/-- A validated database schema (index.ts lines 29-34). -/
structure DatabaseSchema where
  name : String
  fields : List FieldSchema
  primaryKey : Option String
  description : Option String
deriving DecidableEq, Repr

/-- A TOML-representable value of the parsed document.  Numbers are modelled
as integers (the claims never depend on non-integral numeric values). -/
inductive Value where
  | vStr (s : String)
  | vNum (n : Int)
  | vBool (b : Bool)
  | vArr (items : List Value)
  | vTable (entries : List (String × Value))

/-- A parsed JSON value, the untrusted input of the schema validator. -/
inductive Json where
  | jNull
  | jBool (b : Bool)
  | jNum (n : Int)
  | jStr (s : String)
  | jArr (items : List Json)
  | jObj (entries : List (String × Json))

/-- A raw form value as the UI hands it to coercion: string or boolean
(index.ts line 36). -/
inductive FormValue where
  | fvStr (s : String)
  | fvBool (b : Bool)
deriving DecidableEq, Repr

/-- A JavaScript object is modelled as an association list with unique keys;
property read returns the value at the first matching key. -/
def lookupKey {α : Type} : List (String × α) → String → Option α
  | [], _ => none
  | (k, v) :: rest, key => if k = key then some v else lookupKey rest key

/-- Property write `obj[key] = v`: replaces the value at an existing key in
place, appends the key otherwise (JavaScript object assignment). -/
def setKey {α : Type} : List (String × α) → String → α → List (String × α)
  | [], key, v => [(key, v)]
  | (k, w) :: rest, key, v =>
      if k = key then (key, v) :: rest else (k, w) :: setKey rest key v

/-- An in-memory record: a flat JavaScript object of field name to value. -/
abbrev Rec := List (String × Value)

/-- The parsed persisted document. -/
abbrev Doc := List (String × Value)

/-- Whitespace as JavaScript String.prototype.trim strips it (ASCII part). -/
def wsChar (c : Char) : Bool :=
  c = ' ' || c = '\t' || c = '\n' || c = '\r'

/-- The character list of a string with leading and trailing whitespace
removed, modelling String.prototype.trim. -/
def trimChars (l : List Char) : List Char :=
  ((l.dropWhile wsChar).reverse.dropWhile wsChar).reverse

/-- JavaScript String.prototype.trim. -/
def jsTrim (s : String) : String :=
  String.mk (trimChars s.data)

/-- JavaScript String.prototype.toLowerCase (ASCII range, which is all the
claims exercise). -/
def jsLower (s : String) : String :=
  String.mk (s.data.map Char.toLower)

/-- Whether the second list starts with the first. -/
def leadsWith : List Char → List Char → Bool
  | [], _ => true
  | _ :: _, [] => false
  | a :: as, b :: bs => a = b && leadsWith as bs

/-- JavaScript String.prototype.includes: the needle occurs contiguously in
the haystack. -/
def containsSub (hay needle : List Char) : Bool :=
  match hay with
  | [] => needle.isEmpty
  | _ :: t => leadsWith needle hay || containsSub t needle

mutual

/-- JavaScript String(value) on a record value (formatting for the filter,
index.ts lines 406 and 418): strings pass through, booleans print as
true/false, numbers in decimal, arrays join their stringified elements with
commas, plain objects print as [object Object]. -/
def valueToString : Value → String
  | .vStr s => s
  | .vNum n => toString n
  | .vBool b => if b then "true" else "false"
  | .vArr items => valueListToString items
  | .vTable _ => "[object Object]"

/-- Comma join of stringified array elements (JavaScript Array.prototype.toString). -/
def valueListToString : List Value → String
  | [] => ""
  | [v] => valueToString v
  | v :: w :: rest => valueToString v ++ "," ++ valueListToString (w :: rest)

end

/-- Reserved metadata table name (index.ts line 53). -/
def REQMAN_META_TABLE : String := "__reqman"

/-- The single supported embedded schema version (index.ts line 54). -/
def REQMAN_SCHEMA_VERSION : Int := 1

/-- Metadata key of the embedded schema version (index.ts line 55). -/
def REQMAN_SCHEMA_VERSION_KEY : String := "schema_version"

/-- Metadata key of the embedded schema JSON (index.ts line 56). -/
def REQMAN_SCHEMA_JSON_KEY : String := "schema_json"

/-- Rendering of a FieldType back to its schema string. -/
def fieldTypeToString : FieldType → String
  | .number => "number"
  | .text => "text"
  | .boolean => "boolean"
  | .date => "date"
  | .time => "time"
  | .choice => "choice"

/-- Models JSON.stringify(schema, null, 2) (index.ts line 259).  Every claim
depends only on this being a deterministic function of the schema value, not
on the exact serialized text, so a structural JSON rendering without the
pretty-printing whitespace stands in for the host serializer. -/
def schemaToJson (schema : DatabaseSchema) : String :=
  "\x7b\"name\": \"" ++ schema.name ++ "\", \"fields\": [" ++
    String.intercalate ", " (schema.fields.map (fun f =>
      "\x7b\"name\": \"" ++ f.name ++ "\", \"type\": \"" ++ fieldTypeToString f.type ++ "\"" ++
        (match f.label with
         | some l => ", \"label\": \"" ++ l ++ "\""
         | none => "") ++
        (match f.required with
         | some b => ", \"required\": " ++ (if b then "true" else "false")
         | none => "") ++
        (match f.options with
         | some opts => ", \"options\": [" ++
             String.intercalate ", " (opts.map (fun o => "\"" ++ o ++ "\"")) ++ "]"
         | none => "") ++ "\x7d")) ++ "]" ++
    (match schema.primaryKey with
     | some pk => ", \"primaryKey\": \"" ++ pk ++ "\""
     | none => "") ++
    (match schema.description with
     | some d => ", \"description\": \"" ++ d ++ "\""
     | none => "") ++ "\x7d"

/-- Membership in FIELD_TYPES (index.ts lines 52 and 189), returning the
matched type. -/
def fieldTypeOfString (s : String) : Option FieldType :=
  if s = "number" then some FieldType.number
  else if s = "text" then some FieldType.text
  else if s = "boolean" then some FieldType.boolean
  else if s = "date" then some FieldType.date
  else if s = "time" then some FieldType.time
  else if s = "choice" then some FieldType.choice
  else none

/-- Property bag of a JSON value as the validator sees it after the
`!raw || typeof raw !== "object"` gate (index.ts lines 167-170 and 180-183):
objects expose their entries; arrays pass the typeof test but expose no
string-keyed properties; every other value is rejected. -/
def jsObjEntries : Json → Option (List (String × Json))
  | Json.jObj entries => some entries
  | Json.jArr _ => some []
  | _ => none

/-- The pattern `Array.isArray(x) ? x : undefined` on an optional property
value (index.ts lines 176 and 195). -/
def jsArrItems : Option Json → Option (List Json)
  | some (Json.jArr items) => some items
  | _ => none

/-- The pattern `typeof x === "string" ? x.trim() : ""` on a property. -/
def strPropTrimmed (entries : List (String × Json)) (key : String) : String :=
  match lookupKey entries key with
  | some (Json.jStr s) => jsTrim s
  | _ => ""

/-- The pattern `typeof x === "string" ? x.trim() : undefined` on a property. -/
def optStrPropTrimmed (entries : List (String × Json)) (key : String) : Option String :=
  match lookupKey entries key with
  | some (Json.jStr s) => some (jsTrim s)
  | _ => none

/-- The pattern `typeof x === "boolean" ? x : undefined` on a property. -/
def boolProp (entries : List (String × Json)) (key : String) : Option Bool :=
  match lookupKey entries key with
  | some (Json.jBool b) => some b
  | _ => none

/-- The schema table name (index.ts line 171): the trimmed name property when
it is a string with a truthy trim, "records" otherwise. -/
def schemaNameOf (entries : List (String × Json)) : String :=
  match lookupKey entries "name" with
  | some (Json.jStr s) => if jsTrim s = "" then "records" else jsTrim s
  | _ => "records"

/-- Option strings of a choice field, mapped in order with their index
(index.ts lines 198-207): a non-string or empty-after-trimming option throws,
otherwise the trimmed option is kept. -/
def parseOptionsAux (fieldName : String) : Nat → List Json → Except String (List String)
  | _, [] => Except.ok []
  | i, o :: rest =>
      match o with
      | Json.jStr s =>
          if jsTrim s = "" then
            Except.error ("Schema field \x27" ++ fieldName ++ "\x27 has empty option at index "
              ++ toString i ++ ".")
          else
            match parseOptionsAux fieldName (i + 1) rest with
            | Except.ok r => Except.ok (jsTrim s :: r)
            | Except.error e => Except.error e
      | _ => Except.error ("Schema field \x27" ++ fieldName
          ++ "\x27 has non-string option at index " ++ toString i ++ ".")

/-- Duplicate scan over the parsed options in order, the seen set threaded as
a list (index.ts lines 208-214). -/
def checkDupOptions (fieldName : String) : List String → List String → Except String Unit
  | _, [] => Except.ok ()
  | seen, o :: rest =>
      if seen.contains o then
        Except.error ("Schema field \x27" ++ fieldName ++ "\x27 has duplicate option \x27"
          ++ o ++ "\x27.")
      else checkDupOptions fieldName (o :: seen) rest

/-- Validation of one raw field description (index.ts lines 179-228). -/
def parseField (index : Nat) (j : Json) : Except String FieldSchema :=
  match jsObjEntries j with
  | none => Except.error ("Schema field at index " ++ toString index ++ " must be an object.")
  | some entry =>
      if strPropTrimmed entry "name" = "" then
        Except.error ("Schema field at index " ++ toString index ++ " is missing a name.")
      else
        match fieldTypeOfString (strPropTrimmed entry "type") with
        | none => Except.error ("Schema field \x27" ++ strPropTrimmed entry "name"
            ++ "\x27 has unsupported type \x27" ++ strPropTrimmed entry "type" ++ "\x27.")
        | some ft =>
            if ft = FieldType.choice then
              match jsArrItems (lookupKey entry "options") with
              | some optionsRaw =>
                  if optionsRaw.isEmpty then
                    Except.error ("Schema field \x27" ++ strPropTrimmed entry "name"
                      ++ "\x27 requires a non-empty options array.")
                  else
                    match parseOptionsAux (strPropTrimmed entry "name") 0 optionsRaw with
                    | Except.error e => Except.error e
                    | Except.ok parsedOptions =>
                        match checkDupOptions (strPropTrimmed entry "name") [] parsedOptions with
                        | Except.error e => Except.error e
                        | Except.ok _ =>
                            Except.ok ⟨strPropTrimmed entry "name", ft,
                              optStrPropTrimmed entry "label", boolProp entry "required",
                              some parsedOptions⟩
              | none => Except.error ("Schema field \x27" ++ strPropTrimmed entry "name"
                  ++ "\x27 requires a non-empty options array.")
            else
              match lookupKey entry "options" with
              | none => Except.ok ⟨strPropTrimmed entry "name", ft,
                  optStrPropTrimmed entry "label", boolProp entry "required", none⟩
              | some _ => Except.error ("Schema field \x27" ++ strPropTrimmed entry "name"
                  ++ "\x27 has options but is not of type \x27choice\x27.")

/-- Validation of the raw fields array in declaration order (the indexed map
at index.ts line 179). -/
def parseFieldsAux : Nat → List Json → Except String (List FieldSchema)
  | _, [] => Except.ok []
  | i, j :: rest =>
      match parseField i j with
      | Except.error e => Except.error e
      | Except.ok f =>
          match parseFieldsAux (i + 1) rest with
          | Except.error e => Except.error e
          | Except.ok fs => Except.ok (f :: fs)

/-- Duplicate field-name scan (index.ts lines 237-243). -/
def checkDupNames : List String → List FieldSchema → Except String Unit
  | _, [] => Except.ok ()
  | seen, f :: rest =>
      if seen.contains f.name then
        Except.error ("Schema contains duplicate field name \x27" ++ f.name ++ "\x27.")
      else checkDupNames (f.name :: seen) rest

/-- The primaryKey guard (index.ts line 233): set to a truthy (non-empty)
string that references no declared field. -/
def pkMissing (primaryKey : Option String) (fields : List FieldSchema) : Bool :=
  match primaryKey with
  | some pk => pk != "" && (fields.find? (fun f => f.name = pk)).isNone
  | none => false

/-- Schema validator (index.ts lines 166-250). -/
def parseSchema (raw : Json) : Except String DatabaseSchema :=
  match jsObjEntries raw with
  | none => Except.error "Schema must be a JSON object."
  | some obj =>
      if schemaNameOf obj = REQMAN_META_TABLE then
        Except.error ("Schema name \x27" ++ REQMAN_META_TABLE
          ++ "\x27 is reserved for Reqman metadata.")
      else
        match jsArrItems (lookupKey obj "fields") with
        | some fieldsRaw =>
            (match parseFieldsAux 0 fieldsRaw with
             | Except.error e => Except.error e
             | Except.ok fields =>
                if fields = [] then
                  Except.error "Schema.fields must include at least one field."
                else if pkMissing (optStrPropTrimmed obj "primaryKey") fields then
                  Except.error ("Schema primaryKey \x27"
                    ++ (optStrPropTrimmed obj "primaryKey").getD ""
                    ++ "\x27 is not defined in fields.")
                else
                  match checkDupNames [] fields with
                  | Except.error e => Except.error e
                  | Except.ok _ =>
                      Except.ok ⟨schemaNameOf obj, fields,
                        optStrPropTrimmed obj "primaryKey", optStrPropTrimmed obj "description"⟩)
        | none => Except.error "Schema.fields must be an array."

/-- Existing reserved-metadata entries of a document when that section is a
non-array object, an empty object otherwise (index.ts lines 253-257). -/
def metaEntriesOf (data : Doc) : List (String × Value) :=
  match lookupKey data REQMAN_META_TABLE with
  | some (Value.vTable entries) => entries
  | _ => []

/-- The metadata section ensureSchemaMetadata writes: the existing entries
with schema_version and schema_json overwritten unconditionally (index.ts
lines 258-259). -/
def nextMetaOf (data : Doc) (schema : DatabaseSchema) : List (String × Value) :=
  setKey
    (setKey (metaEntriesOf data) REQMAN_SCHEMA_VERSION_KEY (Value.vNum REQMAN_SCHEMA_VERSION))
    REQMAN_SCHEMA_JSON_KEY (Value.vStr (schemaToJson schema))

/-- Metadata codec embed (index.ts lines 252-261): copies the existing
reserved metadata section when it is a non-array object (an empty object
otherwise), overwrites the schema_version and schema_json keys
unconditionally, and stores the section back into the document. -/
def ensureSchemaMetadata (data : Doc) (schema : DatabaseSchema) : Doc :=
  setKey data REQMAN_META_TABLE (Value.vTable (nextMetaOf data schema))

/-- Record normalization (index.ts lines 312-317): a persisted entry that is
not an object-shaped value becomes an empty record; an object is shallow
copied. -/
def normalizeRecord : Value → Rec
  | Value.vTable entries => entries
  | _ => []

/-- Record-store load (index.ts lines 297-310) on the parsed document — file
reading and TOML parsing are the external codec, modelled as an exact
inverse of serialization: extracts the sequence under the schema table name,
defaulting to empty when absent or not a sequence, normalizes every entry,
and stores the normalized sequence back into the document.  Returns the
document and the record sequence. -/
def loadDatabase (data : Doc) (schema : DatabaseSchema) : Doc × List Rec :=
  match lookupKey data schema.name with
  | some (Value.vArr items) =>
      (setKey data schema.name (Value.vArr ((items.map normalizeRecord).map Value.vTable)),
       items.map normalizeRecord)
  | _ => (setKey data schema.name (Value.vArr []), [])

/-- Record-store save (index.ts lines 319-324): writes the records under the
schema table name, re-embeds the schema metadata, and serializes the whole
document; the write through the external TOML codec is modelled as exact,
so the saved document is the parsed content of the rewritten file. -/
def saveDatabase (data : Doc) (schema : DatabaseSchema) (records : List Rec) : Doc :=
  ensureSchemaMetadata (setKey data schema.name (Value.vArr (records.map Value.vTable))) schema

/-- Gregorian leap-year rule (ECMAScript DaysInYear). -/
def isLeap (y : Int) : Bool :=
  (y % 4 == 0 && y % 100 != 0) || y % 400 == 0

/-- Days in the zero-based month m0 of year y (ECMAScript month table).  A
month outside 0..11 never reaches this function after month normalization;
the default arm returns 31. -/
def daysInMonth (y : Int) (m0 : Int) : Int :=
  if m0 = 1 then (if isLeap y then 29 else 28)
  else if m0 = 3 ∨ m0 = 5 ∨ m0 = 8 ∨ m0 = 10 then 30 else 31

/-- Folding an out-of-range day-of-month into the calendar month by month:
the civil normalization Date.UTC performs through its day-number arithmetic
(ECMAScript MakeDay), read back through getUTCFullYear, getUTCMonth and
getUTCDate.  The fuel bounds the number of month steps; twelve is ample for
the two-digit day values the date validator can feed it. -/
def dayNorm : Nat → Int → Int → Int → Int × Int × Int
  | 0, y, m0, d => (y, m0, d)
  | Nat.succ n, y, m0, d =>
      if d > daysInMonth y m0 then
        (if m0 = 11 then dayNorm n (y + 1) 0 (d - daysInMonth y m0)
         else dayNorm n y (m0 + 1) (d - daysInMonth y m0))
      else if d < 1 then
        (if m0 = 0 then dayNorm n (y - 1) 11 (d + daysInMonth (y - 1) 11)
         else dayNorm n y (m0 - 1) (d + daysInMonth y (m0 - 1)))
      else (y, m0, d)

/-- ECMAScript MakeFullYear, applied by Date.UTC: integer years 0..99 denote
1900..1999. -/
def makeFullYear (y : Int) : Int :=
  if 0 ≤ y ∧ y ≤ 99 then 1900 + y else y

/-- The civil triple Date.UTC(y, m0, d) denotes, as getUTCFullYear,
getUTCMonth and getUTCDate read it back: the month is first folded into the
year (floor division and modulo twelve, per MakeDay), then the day is folded
into the months. -/
def jsUtcCivil (y m0 d : Int) : Int × Int × Int :=
  dayNorm 12 (y + m0 / 12) (m0 % 12) d

/-- A decimal digit (code points 48..57). -/
def isDigitChar (c : Char) : Bool :=
  48 ≤ c.toNat && c.toNat ≤ 57

/-- Numeric value of a decimal digit. -/
def digitVal (c : Char) : Nat :=
  c.toNat - 48

/-- The regex ^\d{4}-\d{2}-\d{2}$ together with Number() on the three split
parts (index.ts lines 359-362). -/
def parseYmdChars : List Char → Option (Nat × Nat × Nat)
  | [a, b, c, d, h1, e, f, h2, g, k] =>
      if isDigitChar a && isDigitChar b && isDigitChar c && isDigitChar d &&
          h1 = '-' && isDigitChar e && isDigitChar f && h2 = '-' &&
          isDigitChar g && isDigitChar k then
        some (((digitVal a * 10 + digitVal b) * 10 + digitVal c) * 10 + digitVal d,
          digitVal e * 10 + digitVal f,
          digitVal g * 10 + digitVal k)
      else none
  | _ => none

/-- The round-trip check on the parsed year, month and day (index.ts lines
362-368): reconstruct the date through Date.UTC (two-digit years remapped by
MakeFullYear) and require the getUTC accessors to read back exactly the
parsed components. -/
def isValidYmd (y m d : Nat) : Bool :=
  jsUtcCivil (makeFullYear (y : Int)) ((m : Int) - 1) (d : Int)
    = ((y : Int), (m : Int) - 1, (d : Int))

/-- Date validator (index.ts lines 358-369). -/
def isValidDate (s : String) : Bool :=
  match parseYmdChars s.data with
  | some (y, m, d) => isValidYmd y m d
  | none => false

/-- The regex ^(\d{2}):(\d{2})(?::(\d{2}))?$ with Number() of the parts and
seconds defaulting to 0 (index.ts lines 372-378). -/
def parseHmsChars : List Char → Option (Nat × Nat × Nat)
  | [h1, h2, c1, m1, m2] =>
      if isDigitChar h1 && isDigitChar h2 && c1 = ':' && isDigitChar m1 && isDigitChar m2 then
        some (digitVal h1 * 10 + digitVal h2, digitVal m1 * 10 + digitVal m2, 0)
      else none
  | [h1, h2, c1, m1, m2, c2, s1, s2] =>
      if isDigitChar h1 && isDigitChar h2 && c1 = ':' && isDigitChar m1 && isDigitChar m2 &&
          c2 = ':' && isDigitChar s1 && isDigitChar s2 then
        some (digitVal h1 * 10 + digitVal h2, digitVal m1 * 10 + digitVal m2,
          digitVal s1 * 10 + digitVal s2)
      else none
  | _ => none

/-- Time validator (index.ts lines 371-380). -/
def isValidTime (s : String) : Bool :=
  match parseHmsChars s.data with
  | some (h, m, sec) => h ≤ 23 && m ≤ 59 && sec ≤ 59
  | none => false

/-- JavaScript Boolean(raw) on a form value: undefined and the empty string
are falsy (index.ts line 431). -/
def formTruthy : Option FormValue → Bool
  | none => false
  | some (FormValue.fvBool b) => b
  | some (FormValue.fvStr s) => s != ""

/-- The pattern `typeof raw === "string" ? raw.trim() : ""` on a form value
(index.ts lines 436 and 452). -/
def rawTrimmed (raw : Option FormValue) : String :=
  match raw with
  | some (FormValue.fvStr s) => jsTrim s
  | _ => ""

/-- One iteration of the coercion loop (index.ts lines 428-489): the
assignment this field makes (when any) and the error messages it appends (at
most one).  jsNum models the host Number() on a trimmed non-empty string,
with none standing for NaN. -/
def coerceField (jsNum : String → Option Int) (values : List (String × FormValue))
    (f : FieldSchema) : Option Value × List String :=
  if f.type = FieldType.boolean then
    (some (Value.vBool (formTruthy (lookupKey values f.name))), [])
  else if f.type = FieldType.choice then
    (if rawTrimmed (lookupKey values f.name) = "" then
      (none, if f.required = some true then [f.name ++ " is required."] else [])
    else if (f.options.getD []).contains (rawTrimmed (lookupKey values f.name)) then
      (some (Value.vStr (rawTrimmed (lookupKey values f.name))), [])
    else
      (none, [f.name ++ " must be one of: "
        ++ String.intercalate ", " (f.options.getD []) ++ "."]))
  else if rawTrimmed (lookupKey values f.name) = "" then
    (none, if f.required = some true then [f.name ++ " is required."] else [])
  else if f.type = FieldType.number then
    (match jsNum (rawTrimmed (lookupKey values f.name)) with
     | none => (none, [f.name ++ " must be a valid number."])
     | some n => (some (Value.vNum n), []))
  else if f.type = FieldType.date then
    (if isValidDate (rawTrimmed (lookupKey values f.name)) then
      (some (Value.vStr (rawTrimmed (lookupKey values f.name))), [])
     else (none, [f.name ++ " must be a valid date (YYYY-MM-DD)."]))
  else if f.type = FieldType.time then
    (if isValidTime (rawTrimmed (lookupKey values f.name)) then
      (some (Value.vStr (rawTrimmed (lookupKey values f.name))), [])
     else (none, [f.name ++ " must be a valid time (HH:MM or HH:MM:SS)."]))
  else (some (Value.vStr (rawTrimmed (lookupKey values f.name))), [])

/-- The coercion loop over all declared fields in declaration order (index.ts
lines 424-492), accumulating the record by JavaScript assignment and the
error list by push. -/
def buildAux (jsNum : String → Option Int) (values : List (String × FormValue)) :
    List FieldSchema → Rec → List String → Rec × List String
  | [], record, errors => (record, errors)
  | f :: rest, record, errors =>
      match coerceField jsNum values f with
      | (some v, errs) => buildAux jsNum values rest (setKey record f.name v) (errors ++ errs)
      | (none, errs) => buildAux jsNum values rest record (errors ++ errs)

/-- Form-to-record coercion (index.ts lines 424-492). -/
def buildRecordFromForm (jsNum : String → Option Int) (schema : DatabaseSchema)
    (values : List (String × FormValue)) : Rec × List String :=
  buildAux jsNum values schema.fields [] []

/-- Global-search tail of filterRecords (index.ts lines 410-421): a record
matches when any declared field holds a value whose lowercased string form
contains the lowercased query. -/
def globalSearch (records : List Rec) (schema : DatabaseSchema) (lower : String) : List Nat :=
  (records.enum.filter (fun p =>
    schema.fields.any (fun f =>
      match lookupKey p.2 f.name with
      | none => false
      | some v => containsSub (jsLower (valueToString v)).data lower.data))).map (fun p => p.1)

/-- Field-restricted branch of filterRecords (index.ts lines 390-408), taking
the already-trimmed field and value halves of the query: an empty value is
unrestricted; an unknown field yields no matches; otherwise a record matches
when the named field holds a value whose lowercased string form contains the
value half. -/
def fieldSearch (records : List Rec) (schema : DatabaseSchema) (field value : String) : List Nat :=
  if value = "" then List.range records.length
  else
    match schema.fields.find? (fun entry => jsLower entry.name = field) with
    | none => []
    | some schemaField =>
        (records.enum.filter (fun p =>
          match lookupKey p.2 schemaField.name with
          | none => false
          | some v => containsSub (jsLower (valueToString v)).data value.data)).map (fun p => p.1)

/-- Filter engine (index.ts lines 382-422): an empty trimmed query keeps every
index; a query with a colon after at least one character is split at the first
colon into field and value halves, both trimmed, and dispatched to
fieldSearch; any other query is a global search over the lowercased trimmed
query. -/
def filterRecords (records : List Rec) (schema : DatabaseSchema) (filterValue : String) : List Nat :=
  if jsTrim filterValue = "" then List.range records.length
  else
    match (jsLower (jsTrim filterValue)).data.findIdx? (fun c => c = ':') with
    | some i =>
        if 0 < i then
          fieldSearch records schema
            (jsTrim (String.mk ((jsLower (jsTrim filterValue)).data.take i)))
            (jsTrim (String.mk ((jsLower (jsTrim filterValue)).data.drop (i + 1))))
        else globalSearch records schema (jsLower (jsTrim filterValue))
    | none => globalSearch records schema (jsLower (jsTrim filterValue))

/-- Demo schema of the spec filter-semantics property: fields id of type
number and title of type text. -/
def demoSchema : DatabaseSchema :=
  ⟨"records",
    [⟨"id", FieldType.number, none, none, none⟩,
     ⟨"title", FieldType.text, none, none, none⟩],
    none, none⟩

/-- Demo records of the spec filter-semantics property. -/
def demoRecords : List Rec :=
  [[("id", Value.vNum 1), ("title", Value.vStr "Buy milk")],
   [("id", Value.vNum 2), ("title", Value.vStr "Walk dog")]]

/-- Raw field-entry accessor the claims read: the trimmed declared name, or
the empty string for an entry carrying no usable name. -/
def rawEntryName (j : Json) : String :=
  match jsObjEntries j with
  | some entry => strPropTrimmed entry "name"
  | none => ""

/-- Raw field-entry accessor: the trimmed declared type string. -/
def rawEntryTypeStr (j : Json) : String :=
  match jsObjEntries j with
  | some entry => strPropTrimmed entry "type"
  | none => ""

/-- Raw field-entry accessor: the options property, when present. -/
def rawEntryOptions (j : Json) : Option Json :=
  match jsObjEntries j with
  | some entry => lookupKey entry "options"
  | none => none

/-- The raw fields array of a schema description, when it is one. -/
def rawFieldEntries (raw : Json) : Option (List Json) :=
  match jsObjEntries raw with
  | some obj => jsArrItems (lookupKey obj "fields")
  | none => none

/-- Trim of one raw option as the uniqueness check compares it (empty for a
non-string option, which fails validation on its own). -/
def rawOptionTrim (o : Json) : String :=
  match o with
  | Json.jStr s => jsTrim s
  | _ => ""

/-- Spec defect: two declared fields share a trimmed name. -/
def specDupFieldName (raw : Json) : Prop :=
  ∃ l, rawFieldEntries raw = some l ∧ ¬ (l.map rawEntryName).Nodup

/-- An options property that is a non-empty array. -/
def optionsNonemptyArr (o : Option Json) : Prop :=
  ∃ opts, o = some (Json.jArr opts) ∧ opts ≠ []

/-- Spec defect: a choice field with zero options (no non-empty options
array) or with duplicate options after trimming. -/
def specChoiceBadOptions (raw : Json) : Prop :=
  ∃ l, rawFieldEntries raw = some l ∧ ∃ j ∈ l, rawEntryTypeStr j = "choice" ∧
    (¬ optionsNonemptyArr (rawEntryOptions j) ∨
      ∃ opts, rawEntryOptions j = some (Json.jArr opts) ∧ ¬ (opts.map rawOptionTrim).Nodup)

/-- Spec defect: a non-choice field carrying an options property. -/
def specNonChoiceOptions (raw : Json) : Prop :=
  ∃ l, rawFieldEntries raw = some l ∧ ∃ j ∈ l,
    rawEntryTypeStr j ≠ "choice" ∧ rawEntryOptions j ≠ none

/-- Spec defect (amended): a primaryKey that is a string with a non-empty
trim matching no declared trimmed field name. -/
def specBadPrimaryKey (raw : Json) : Prop :=
  ∃ obj, jsObjEntries raw = some obj ∧ ∃ s, lookupKey obj "primaryKey" = some (Json.jStr s) ∧
    jsTrim s ≠ "" ∧
    (match rawFieldEntries raw with
     | some l => jsTrim s ∉ l.map rawEntryName
     | none => True)

/-- Spec defect: the schema name resolves to the reserved metadata name. -/
def specReservedName (raw : Json) : Prop :=
  ∃ obj, jsObjEntries raw = some obj ∧ schemaNameOf obj = REQMAN_META_TABLE

/-- Raw field description of a text field with the given name. -/
def exFieldText (nm : String) : Json :=
  Json.jObj [("name", Json.jStr nm), ("type", Json.jStr "text")]

/-- Raw choice field named c with the given raw options. -/
def exFieldChoice (opts : List Json) : Json :=
  Json.jObj [("name", Json.jStr "c"), ("type", Json.jStr "choice"), ("options", Json.jArr opts)]

/-- Raw schema with a duplicate field name. -/
def exDupName : Json :=
  Json.jObj [("fields", Json.jArr [exFieldText "a", exFieldText "a"])]

/-- Raw schema with a choice field with zero options. -/
def exChoiceEmpty : Json :=
  Json.jObj [("fields", Json.jArr [exFieldChoice []])]

/-- Raw schema with a choice field with duplicate options. -/
def exChoiceDup : Json :=
  Json.jObj [("fields", Json.jArr [exFieldChoice [Json.jStr "a", Json.jStr "a"]])]

/-- Raw schema with a text field carrying options. -/
def exNonChoiceOptions : Json :=
  Json.jObj [("fields", Json.jArr
    [Json.jObj [("name", Json.jStr "t"), ("type", Json.jStr "text"),
      ("options", Json.jArr [Json.jStr "x"])]])]

/-- Raw schema whose primaryKey references no declared field. -/
def exBadPk : Json :=
  Json.jObj [("fields", Json.jArr [exFieldText "a"]), ("primaryKey", Json.jStr "b")]

/-- Raw schema named with the reserved metadata name. -/
def exReserved : Json :=
  Json.jObj [("name", Json.jStr "__reqman"), ("fields", Json.jArr [exFieldText "a"])]

/-- Raw schema whose primaryKey is a whitespace-only string: it matches no
declared field name, yet validation accepts it. -/
def pkBlankRaw : Json :=
  Json.jObj [("fields", Json.jArr [exFieldText "a"]), ("primaryKey", Json.jStr "  ")]

/-- Raw schema with two choice options that coincide after trimming. -/
def exChoiceTrimDup : Json :=
  Json.jObj [("fields", Json.jArr [exFieldChoice [Json.jStr "a", Json.jStr "a "]])]

/-- Raw schema with a whitespace-only choice option. -/
def exChoiceWsOption : Json :=
  Json.jObj [("fields", Json.jArr [exFieldChoice [Json.jStr " "]])]

/-- Raw schema with untrimmed choice options that validate. -/
def exChoiceTrimStore : Json :=
  Json.jObj [("fields", Json.jArr [exFieldChoice [Json.jStr " x ", Json.jStr "y"]])]

/-- Only the string "choice" maps to the choice field type. -/
theorem fieldTypeOfString_eq_choice {s : String}
    (h : fieldTypeOfString s = some FieldType.choice) : s = "choice" := by
  unfold fieldTypeOfString at h
  split_ifs at h <;> simp_all

/-- Inversion of the option map: success returns the trims of the raw
options, all of which are strings with non-empty trims. -/
theorem parseOptionsAux_ok {fieldName : String} :
    ∀ (l : List Json) (i : Nat) (opts : List String),
      parseOptionsAux fieldName i l = Except.ok opts →
      opts = l.map rawOptionTrim ∧ ∀ o ∈ l, ∃ s, o = Json.jStr s ∧ jsTrim s ≠ "" := by
  intro l
  induction l with
  | nil =>
      intro i opts h
      injection h with h
      subst h
      exact ⟨rfl, by simp⟩
  | cons o rest ih =>
      intro i opts h
      cases o with
      | jStr s =>
          simp only [parseOptionsAux] at h
          by_cases hs : jsTrim s = ""
          · rw [if_pos hs] at h
            cases h
          · rw [if_neg hs] at h
            cases hr : parseOptionsAux fieldName (i + 1) rest with
            | error e => rw [hr] at h; cases h
            | ok r =>
                rw [hr] at h
                injection h with h
                subst h
                obtain ⟨h1, h2⟩ := ih (i + 1) r hr
                subst h1
                refine ⟨rfl, ?_⟩
                intro o ho
                rcases List.mem_cons.mp ho with ho | ho
                · exact ⟨s, ho, hs⟩
                · exact h2 o ho
      | jNull => simp only [parseOptionsAux] at h; cases h
      | jBool b => simp only [parseOptionsAux] at h; cases h
      | jNum n => simp only [parseOptionsAux] at h; cases h
      | jArr items => simp only [parseOptionsAux] at h; cases h
      | jObj entries => simp only [parseOptionsAux] at h; cases h

/-- Inversion of the duplicate-option scan: success means the scanned list
has no duplicates and avoids the seen set. -/
theorem checkDupOptions_ok {fieldName : String} :
    ∀ (l seen : List String), checkDupOptions fieldName seen l = Except.ok () →
      l.Nodup ∧ ∀ x ∈ l, x ∉ seen := by
  intro l
  induction l with
  | nil =>
      intro seen h
      exact ⟨List.nodup_nil, by simp⟩
  | cons o rest ih =>
      intro seen h
      simp only [checkDupOptions] at h
      by_cases hc : seen.contains o = true
      · rw [if_pos hc] at h; cases h
      · rw [if_neg hc] at h
        obtain ⟨hnd, hns⟩ := ih (o :: seen) h
        have ho : o ∉ rest := fun hmem => (hns o hmem) (List.mem_cons_self o seen)
        refine ⟨List.nodup_cons.mpr ⟨ho, hnd⟩, ?_⟩
        intro x hx hxs
        rcases List.mem_cons.mp hx with hx | hx
        · subst hx
          exact hc (by simpa using hxs)
        · exact (hns x hx) (List.mem_cons_of_mem o hxs)

/-- Inversion of the duplicate-field-name scan. -/
theorem checkDupNames_ok :
    ∀ (fs : List FieldSchema) (seen : List String), checkDupNames seen fs = Except.ok () →
      (fs.map (fun f => f.name)).Nodup ∧ ∀ f ∈ fs, f.name ∉ seen := by
  intro fs
  induction fs with
  | nil =>
      intro seen h
      exact ⟨List.nodup_nil, by simp⟩
  | cons f rest ih =>
      intro seen h
      simp only [checkDupNames] at h
      by_cases hc : seen.contains f.name = true
      · rw [if_pos hc] at h; cases h
      · rw [if_neg hc] at h
        obtain ⟨hnd, hns⟩ := ih (f.name :: seen) h
        have hf : f.name ∉ rest.map (fun g => g.name) := by
          intro hmem
          obtain ⟨g, hg, hgname⟩ := List.mem_map.mp hmem
          exact (hns g hg) (hgname ▸ List.mem_cons_self f.name seen)
        refine ⟨List.nodup_cons.mpr ⟨hf, hnd⟩, ?_⟩
        intro g hg hgs
        rcases List.mem_cons.mp hg with hg | hg
        · subst hg
          exact hc (by simpa using hgs)
        · exact (hns g hg) (List.mem_cons_of_mem f.name hgs)

/-- Inversion of the Array.isArray helper. -/
theorem jsArrItems_some : ∀ {o : Option Json} {l : List Json},
    jsArrItems o = some l → o = some (Json.jArr l)
  | some (Json.jArr items), _, h => by injection h with h; subst h; rfl
  | none, _, h => by cases h
  | some Json.jNull, _, h => by cases h
  | some (Json.jBool b), _, h => by cases h
  | some (Json.jNum n), _, h => by cases h
  | some (Json.jStr s), _, h => by cases h
  | some (Json.jObj e), _, h => by cases h

/-- Inversion of one-field validation: the produced field records the trimmed
name and matched type of the raw entry, choice fields carry the non-empty
trimmed, duplicate-free options of a raw options array of strings with
non-empty trims, and non-choice fields come from entries with no options
property. -/
theorem parseField_ok {i : Nat} {j : Json} {f : FieldSchema}
    (h : parseField i j = Except.ok f) :
    ∃ entry, jsObjEntries j = some entry ∧
      f.name = strPropTrimmed entry "name" ∧
      f.name ≠ "" ∧
      fieldTypeOfString (strPropTrimmed entry "type") = some f.type ∧
      (f.type = FieldType.choice →
        ∃ optionsRaw, lookupKey entry "options" = some (Json.jArr optionsRaw) ∧
          optionsRaw ≠ [] ∧
          f.options = some (optionsRaw.map rawOptionTrim) ∧
          (∀ o ∈ optionsRaw, ∃ s, o = Json.jStr s ∧ jsTrim s ≠ "") ∧
          (optionsRaw.map rawOptionTrim).Nodup) ∧
      (f.type ≠ FieldType.choice → lookupKey entry "options" = none ∧ f.options = none) := by
  unfold parseField at h
  cases hj : jsObjEntries j with
  | none => simp only [hj] at h; cases h
  | some entry =>
      simp only [hj] at h
      by_cases hn : strPropTrimmed entry "name" = ""
      · rw [if_pos hn] at h; cases h
      · rw [if_neg hn] at h
        cases hft : fieldTypeOfString (strPropTrimmed entry "type") with
        | none => simp only [hft] at h; cases h
        | some ft =>
            simp only [hft] at h
            by_cases hc : ft = FieldType.choice
            · rw [if_pos hc] at h
              cases ho : jsArrItems (lookupKey entry "options") with
              | none => simp only [ho] at h; cases h
              | some optionsRaw =>
                  simp only [ho] at h
                  by_cases he : optionsRaw.isEmpty = true
                  · rw [if_pos he] at h; cases h
                  · rw [if_neg he] at h
                    cases hpo : parseOptionsAux (strPropTrimmed entry "name") 0 optionsRaw with
                    | error e => simp only [hpo] at h; cases h
                    | ok parsedOptions =>
                        simp only [hpo] at h
                        cases hdo : checkDupOptions (strPropTrimmed entry "name") [] parsedOptions with
                        | error e => simp only [hdo] at h; cases h
                        | ok u =>
                            cases u
                            simp only [hdo] at h
                            injection h with h
                            subst h
                            subst hc
                            obtain ⟨hmap, hstrs⟩ := parseOptionsAux_ok optionsRaw 0 parsedOptions hpo
                            obtain ⟨hnd, -⟩ := checkDupOptions_ok parsedOptions [] hdo
                            subst hmap
                            refine ⟨entry, rfl, rfl, hn, hft, ?_, ?_⟩
                            · intro _
                              refine ⟨optionsRaw, jsArrItems_some ho, ?_, rfl, hstrs, hnd⟩
                              intro hnil
                              subst hnil
                              exact he rfl
                            · intro hne
                              exact absurd rfl hne
            · rw [if_neg hc] at h
              cases ho : lookupKey entry "options" with
              | none =>
                  simp only [ho] at h
                  injection h with h
                  subst h
                  exact ⟨entry, rfl, rfl, hn, hft, fun hch => absurd hch hc, fun _ => ⟨ho, rfl⟩⟩
              | some ov => simp only [ho] at h; cases h

/-- Inversion of the indexed field map: success pairs each raw entry with a
validated field. -/
theorem parseFieldsAux_ok :
    ∀ (l : List Json) (i : Nat) (fs : List FieldSchema),
      parseFieldsAux i l = Except.ok fs →
      List.Forall₂ (fun j f => ∃ n, parseField n j = Except.ok f) l fs := by
  intro l
  induction l with
  | nil =>
      intro i fs h
      injection h with h
      subst h
      exact List.Forall₂.nil
  | cons j rest ih =>
      intro i fs h
      simp only [parseFieldsAux] at h
      cases hf : parseField i j with
      | error e => rw [hf] at h; cases h
      | ok f =>
          rw [hf] at h
          cases hr : parseFieldsAux (i + 1) rest with
          | error e => rw [hr] at h; cases h
          | ok fs2 =>
              rw [hr] at h
              injection h with h
              subst h
              exact List.Forall₂.cons ⟨i, hf⟩ (ih (i + 1) fs2 hr)

/-- The validated fields carry exactly the trimmed raw entry names, in
order. -/
theorem parseFieldsAux_names {l : List Json} {fs : List FieldSchema}
    (h : List.Forall₂ (fun j f => ∃ n, parseField n j = Except.ok f) l fs) :
    fs.map (fun f => f.name) = l.map rawEntryName := by
  induction h with
  | nil => rfl
  | cons hr hrest ih =>
      obtain ⟨n, hok⟩ := hr
      obtain ⟨entry, hentry, hname, -⟩ := parseField_ok hok
      simp only [List.map_cons, ih, rawEntryName, hentry, hname]

/-- Every left element of a Forall₂ pair has a related right element. -/
theorem forall₂_exists_right {α β : Type} {R : α → β → Prop} :
    ∀ {l : List α} {fs : List β}, List.Forall₂ R l fs → ∀ x ∈ l, ∃ y ∈ fs, R x y := by
  intro l fs h
  induction h with
  | nil => intro x hx; cases hx
  | cons hr hrest ih =>
      intro x hx
      rcases List.mem_cons.mp hx with hx | hx
      · subst hx
        exact ⟨_, List.mem_cons_self _ _, hr⟩
      · obtain ⟨y, hy, hR⟩ := ih x hx
        exact ⟨y, List.mem_cons_of_mem _ hy, hR⟩

/-- Inversion of the schema validator: what a successful parse guarantees
about the raw description and the produced schema. -/
theorem parseSchema_ok {raw : Json} {s : DatabaseSchema}
    (h : parseSchema raw = Except.ok s) :
    ∃ obj, jsObjEntries raw = some obj ∧
      s.name = schemaNameOf obj ∧
      schemaNameOf obj ≠ REQMAN_META_TABLE ∧
      ∃ fieldsRaw, jsArrItems (lookupKey obj "fields") = some fieldsRaw ∧
        parseFieldsAux 0 fieldsRaw = Except.ok s.fields ∧
        s.fields ≠ [] ∧
        s.primaryKey = optStrPropTrimmed obj "primaryKey" ∧
        pkMissing (optStrPropTrimmed obj "primaryKey") s.fields = false ∧
        (s.fields.map (fun f => f.name)).Nodup := by
  unfold parseSchema at h
  cases hobj : jsObjEntries raw with
  | none => simp only [hobj] at h; cases h
  | some obj =>
      simp only [hobj] at h
      by_cases hres : schemaNameOf obj = REQMAN_META_TABLE
      · rw [if_pos hres] at h; cases h
      · rw [if_neg hres] at h
        cases hfl : jsArrItems (lookupKey obj "fields") with
        | none => simp only [hfl] at h; cases h
        | some fieldsRaw =>
            simp only [hfl] at h
            cases hpf : parseFieldsAux 0 fieldsRaw with
            | error e => simp only [hpf] at h; cases h
            | ok fields =>
                simp only [hpf] at h
                by_cases hnil : fields = []
                · rw [if_pos hnil] at h; cases h
                · rw [if_neg hnil] at h
                  by_cases hpk : pkMissing (optStrPropTrimmed obj "primaryKey") fields = true
                  · rw [if_pos hpk] at h; cases h
                  · rw [if_neg hpk] at h
                    cases hdn : checkDupNames [] fields with
                    | error e => simp only [hdn] at h; cases h
                    | ok u =>
                        cases u
                        simp only [hdn] at h
                        injection h with h
                        subst h
                        refine ⟨obj, rfl, rfl, hres, fieldsRaw, hfl, hpf, hnil, rfl,
                          by simpa using hpk, (checkDupNames_ok fields [] hdn).1⟩

/-- Tail of the schema extraction (index.ts lines 1094-1109): reads the
embedded schema_json string, requires a non-empty trim, parses it with the
host JSON parser, and delegates to the schema validator. -/
def loadSchemaJson (jsonParse : String → Except String Json) (dbPath : String)
    (meta : List (String × Value)) : Except String DatabaseSchema :=
  match lookupKey meta REQMAN_SCHEMA_JSON_KEY with
  | some (Value.vStr sj) =>
      if jsTrim sj = "" then
        Except.error ("Database \x27" ++ dbPath
          ++ "\x27 does not include an embedded schema. Provide --schema to create or update it.")
      else
        match jsonParse (jsTrim sj) with
        | Except.error msg =>
            Except.error ("Embedded schema in \x27" ++ dbPath ++ "\x27 is not valid JSON: " ++ msg)
        | Except.ok schemaRaw => parseSchema schemaRaw
  | _ =>
      Except.error ("Database \x27" ++ dbPath
        ++ "\x27 does not include an embedded schema. Provide --schema to create or update it.")

/-- Schema extraction from a persisted document (index.ts lines 1057-1110).
File reading, the empty-file check and TOML parsing happen upstream through
the external codec, so the function receives the parsed document; jsonParse
models the host JSON.parse, returning the thrown message on failure.  The
reserved metadata section must be a non-array object; a schema_version that
is present and non-numeric, or numeric and different from the supported
version, fails before the embedded schema_json is ever consulted. -/
def loadSchemaFromDatabase (jsonParse : String → Except String Json) (dbPath : String)
    (data : Doc) : Except String DatabaseSchema :=
  match lookupKey data REQMAN_META_TABLE with
  | some (Value.vTable meta) =>
      (match lookupKey meta REQMAN_SCHEMA_VERSION_KEY with
       | none => loadSchemaJson jsonParse dbPath meta
       | some (Value.vNum v) =>
           if v ≠ REQMAN_SCHEMA_VERSION then
             Except.error ("Database \x27" ++ dbPath
               ++ "\x27 has unsupported embedded schema_version=" ++ toString v ++ ".")
           else loadSchemaJson jsonParse dbPath meta
       | some _ =>
           Except.error ("Database \x27" ++ dbPath
             ++ "\x27 has invalid embedded schema version metadata."))
  | _ =>
      Except.error ("Database \x27" ++ dbPath
        ++ "\x27 does not include an embedded schema. Provide --schema to create or update it.")

/-- Calendar correctness of a parsed year-month-day triple in the proleptic
Gregorian calendar, as the claim states it: month 1..12 and day within the
month length. -/
def calendarCorrect (y m d : Nat) : Bool :=
  1 ≤ m && m ≤ 12 && 1 ≤ d && (d : Int) ≤ daysInMonth (y : Int) ((m : Int) - 1)

/-- Modelled from the spec: the set of strings the claim says the date
coercion accepts — shape YYYY-MM-DD denoting a calendar-correct date. -/
def denotesCalendarDate (s : String) : Bool :=
  match parseYmdChars s.data with
  | some (y, m, d) => calendarCorrect y m d
  | none => false

/-- C2 (counterexample): the query "nope:" has a colon after at least one
character and its field half matches no declared field of demoSchema, yet
filterRecords keeps every index (here index 0) instead of returning the empty
sequence, because the empty-after-trimming value half is checked before the
field name is resolved (index.ts lines 392-394). -/
theorem filterRecords_unknown_field_empty_value_cex :
    (demoSchema.fields.all (fun f => jsLower f.name != "nope")) = true ∧
    filterRecords [[]] demoSchema "nope:" = [0] := by
  decide

/-- C2 (amended): for a query of the form field:substring (colon after at
least one character) whose field half matches no declared field name
case-insensitively, filterRecords returns the empty sequence whenever the
substring half is non-empty after trimming; when the substring half trims to
empty, every index is returned instead, regardless of the field half. -/
theorem filterRecords_unknown_field_behavior
    (records : List Rec) (schema : DatabaseSchema) (q : String) (i : Nat)
    (hci : (jsLower (jsTrim q)).data.findIdx? (fun c => c = ':') = some i)
    (hpos : 0 < i)
    (hnf : schema.fields.find?
        (fun entry => jsLower entry.name =
          jsTrim (String.mk ((jsLower (jsTrim q)).data.take i))) = none) :
    (jsTrim (String.mk ((jsLower (jsTrim q)).data.drop (i + 1))) ≠ "" →
        filterRecords records schema q = []) ∧
    (jsTrim (String.mk ((jsLower (jsTrim q)).data.drop (i + 1))) = "" →
        filterRecords records schema q = List.range records.length) := by
  have ht : jsTrim q ≠ "" := by
    intro h
    rw [h] at hci
    exact Option.noConfusion hci
  constructor
  · intro hv
    simp only [filterRecords, if_neg ht, hci, if_pos hpos]
    simp only [fieldSearch, if_neg hv, hnf]
  · intro hv
    simp only [filterRecords, if_neg ht, hci, if_pos hpos]
    simp only [fieldSearch, if_pos hv]

/-- C2 (witness): the amended theorem applied to the concrete query "nope:x"
over demoSchema with one record. -/
theorem filterRecords_unknown_field_behavior_witness :
    (jsTrim (String.mk ((jsLower (jsTrim "nope:x")).data.drop (4 + 1))) ≠ "" →
        filterRecords [[]] demoSchema "nope:x" = []) ∧
    (jsTrim (String.mk ((jsLower (jsTrim "nope:x")).data.drop (4 + 1))) = "" →
        filterRecords [[]] demoSchema "nope:x" = List.range ([[]] : List Rec).length) :=
  filterRecords_unknown_field_behavior [[]] demoSchema "nope:x" 4
    (by decide) (by decide) (by decide)

/-- C8: on the demo records and schema the filter returns the spec indices
for the queries "", "dog", "title:milk" and "title:" (empty value after
colon), and for every record set an empty or whitespace-only query returns
all indices in original order. -/
theorem filterRecords_demo_semantics :
    filterRecords demoRecords demoSchema "" = [0, 1] ∧
    filterRecords demoRecords demoSchema "dog" = [1] ∧
    filterRecords demoRecords demoSchema "title:milk" = [0] ∧
    filterRecords demoRecords demoSchema "title:" = [0, 1] ∧
    ∀ (records : List Rec) (schema : DatabaseSchema) (q : String),
      jsTrim q = "" → filterRecords records schema q = List.range records.length := by
  refine ⟨by decide, by decide, by decide, by decide, ?_⟩
  intro records schema q h
  simp only [filterRecords, if_pos h]

/-- Reading back the key just written returns the written value. -/
theorem lookupKey_setKey_self {α : Type} (l : List (String × α)) (k : String) (v : α) :
    lookupKey (setKey l k v) k = some v := by
  induction l with
  | nil => simp [setKey, lookupKey]
  | cons h t ih =>
      obtain ⟨k0, v0⟩ := h
      by_cases hk : k0 = k
      · simp [setKey, hk, lookupKey]
      · simp [setKey, hk, lookupKey, ih]

/-- Writing one key leaves every other key unchanged. -/
theorem lookupKey_setKey_ne {α : Type} (l : List (String × α)) (k k' : String) (v : α)
    (h : k ≠ k') : lookupKey (setKey l k v) k' = lookupKey l k' := by
  induction l with
  | nil => simp [setKey, lookupKey, h]
  | cons hd t ih =>
      obtain ⟨k0, v0⟩ := hd
      by_cases hk : k0 = k
      · subst hk
        simp [setKey, lookupKey, h, ih]
      · simp [setKey, hk, lookupKey, ih]

/-- Writing a value that is already stored at the key changes nothing. -/
theorem setKey_lookup_id {α : Type} (l : List (String × α)) (k : String) (v : α)
    (h : lookupKey l k = some v) : setKey l k v = l := by
  induction l with
  | nil => simp [lookupKey] at h
  | cons hd t ih =>
      obtain ⟨k0, v0⟩ := hd
      by_cases hk : k0 = k
      · subst hk
        simp [lookupKey] at h
        simp [setKey, h]
      · simp [lookupKey, hk] at h
        simp [setKey, hk, ih h]

/-- The embedded metadata section carries schema_version at the supported
version. -/
theorem lookupKey_nextMetaOf_version (data : Doc) (schema : DatabaseSchema) :
    lookupKey (nextMetaOf data schema) REQMAN_SCHEMA_VERSION_KEY
      = some (Value.vNum REQMAN_SCHEMA_VERSION) := by
  unfold nextMetaOf
  rw [lookupKey_setKey_ne _ _ _ _ (by decide), lookupKey_setKey_self]

/-- The embedded metadata section carries the serialized schema. -/
theorem lookupKey_nextMetaOf_json (data : Doc) (schema : DatabaseSchema) :
    lookupKey (nextMetaOf data schema) REQMAN_SCHEMA_JSON_KEY
      = some (Value.vStr (schemaToJson schema)) := by
  unfold nextMetaOf
  rw [lookupKey_setKey_self]

/-- C7: re-embedding the schema metadata is idempotent — a second call with
the same schema leaves the document (hence its metadata section) identical —
and each call overwrites exactly the schema_version and schema_json keys of
the reserved section, preserving every other key of an existing metadata
object. -/
theorem ensureSchemaMetadata_idempotent_preserving (data : Doc) (schema : DatabaseSchema) :
    ensureSchemaMetadata (ensureSchemaMetadata data schema) schema
      = ensureSchemaMetadata data schema ∧
    (∃ meta, lookupKey (ensureSchemaMetadata data schema) REQMAN_META_TABLE
        = some (Value.vTable meta) ∧
      lookupKey meta REQMAN_SCHEMA_VERSION_KEY = some (Value.vNum REQMAN_SCHEMA_VERSION) ∧
      lookupKey meta REQMAN_SCHEMA_JSON_KEY = some (Value.vStr (schemaToJson schema)) ∧
      ∀ k, k ≠ REQMAN_SCHEMA_VERSION_KEY → k ≠ REQMAN_SCHEMA_JSON_KEY →
        ∀ old, lookupKey data REQMAN_META_TABLE = some (Value.vTable old) →
          lookupKey meta k = lookupKey old k) := by
  have hentries : metaEntriesOf (ensureSchemaMetadata data schema) = nextMetaOf data schema := by
    unfold metaEntriesOf ensureSchemaMetadata
    rw [lookupKey_setKey_self]
  constructor
  · have hnext : nextMetaOf (ensureSchemaMetadata data schema) schema = nextMetaOf data schema := by
      unfold nextMetaOf
      rw [hentries]
      show setKey (setKey (nextMetaOf data schema) _ _) _ _ = _
      rw [setKey_lookup_id _ _ _ (lookupKey_nextMetaOf_version data schema),
        setKey_lookup_id _ _ _ (lookupKey_nextMetaOf_json data schema)]
      rfl
    show setKey (ensureSchemaMetadata data schema) _ _ = _
    rw [hnext]
    exact setKey_lookup_id _ _ _ (by unfold ensureSchemaMetadata; rw [lookupKey_setKey_self])
  · refine ⟨nextMetaOf data schema, ?_, lookupKey_nextMetaOf_version data schema,
      lookupKey_nextMetaOf_json data schema, ?_⟩
    · unfold ensureSchemaMetadata
      rw [lookupKey_setKey_self]
    · intro k hkv hkj old hold
      unfold nextMetaOf
      rw [lookupKey_setKey_ne _ _ _ _ (fun h => hkj h.symm),
        lookupKey_setKey_ne _ _ _ _ (fun h => hkv h.symm)]
      unfold metaEntriesOf
      rw [hold]

/-- C1: saving a record sequence and loading it back from the same document
yields the identical sequence.  Records are association lists, so equality
preserves field order, the typed values, and the absence of every field that
was omitted at save time.  The hypothesis is the validator invariant that the
schema table name is not the reserved metadata name. -/
theorem saveDatabase_loadDatabase_roundtrip
    (data : Doc) (schema : DatabaseSchema) (records : List Rec)
    (h : schema.name ≠ REQMAN_META_TABLE) :
    (loadDatabase (saveDatabase data schema records) schema).2 = records := by
  unfold saveDatabase loadDatabase ensureSchemaMetadata
  rw [lookupKey_setKey_ne _ _ _ _ (fun hh => h hh.symm), lookupKey_setKey_self]
  simp only [List.map_map]
  have : normalizeRecord ∘ Value.vTable = id := by
    funext r
    rfl
  rw [this, List.map_id]

/-- C1 (witness): the round-trip theorem at the demo schema and records over
an empty starting document. -/
theorem saveDatabase_loadDatabase_roundtrip_witness :
    (loadDatabase (saveDatabase [] demoSchema demoRecords) demoSchema).2 = demoRecords :=
  saveDatabase_loadDatabase_roundtrip [] demoSchema demoRecords (by decide)

/-- A type string that maps to the choice type is "choice". -/
theorem fieldType_some_choice {str : String} {ft : FieldType}
    (h : fieldTypeOfString str = some ft) (hs : str = "choice") : ft = FieldType.choice := by
  subst hs
  have hch : fieldTypeOfString "choice" = some FieldType.choice := rfl
  rw [hch] at h
  injection h with h
  exact h.symm

/-- A successful parse of one raw entry list relates each raw entry to a
field; the fields array of the raw description is the one the inversion of
parseSchema names. -/
theorem rawFieldEntries_of_ok {raw : Json} {obj : List (String × Json)} {fieldsRaw : List Json}
    (hobj : jsObjEntries raw = some obj)
    (hfl : jsArrItems (lookupKey obj "fields") = some fieldsRaw) :
    rawFieldEntries raw = some fieldsRaw := by
  simp only [rawFieldEntries, hobj, hfl]

/-- A validated schema description has no duplicate trimmed field name. -/
theorem parseSchema_ok_no_dupName {raw : Json} {s : DatabaseSchema}
    (h : parseSchema raw = Except.ok s) : ¬ specDupFieldName raw := by
  rintro ⟨l, hfe, hnd⟩
  obtain ⟨obj, hobj, -, -, fieldsRaw, hfl, hpf, -, -, -, hnodup⟩ := parseSchema_ok h
  rw [rawFieldEntries_of_ok hobj hfl] at hfe
  injection hfe with hfe
  subst hfe
  rw [parseFieldsAux_names (parseFieldsAux_ok fieldsRaw 0 s.fields hpf)] at hnodup
  exact hnd hnodup

/-- A validated schema description has no choice field with zero or
duplicate-after-trimming options. -/
theorem parseSchema_ok_no_badChoice {raw : Json} {s : DatabaseSchema}
    (h : parseSchema raw = Except.ok s) : ¬ specChoiceBadOptions raw := by
  rintro ⟨l, hfe, j, hj, htype, hbad⟩
  obtain ⟨obj, hobj, -, -, fieldsRaw, hfl, hpf, -, -, -, -⟩ := parseSchema_ok h
  rw [rawFieldEntries_of_ok hobj hfl] at hfe
  injection hfe with hfe
  subst hfe
  obtain ⟨f, -, n, hokf⟩ := forall₂_exists_right (parseFieldsAux_ok fieldsRaw 0 s.fields hpf) j hj
  obtain ⟨entry, hentry, -, -, hft, hchoice, -⟩ := parseField_ok hokf
  simp only [rawEntryTypeStr, hentry] at htype
  obtain ⟨optionsRaw, hloc, hne2, -, hstrs, hnd⟩ := hchoice (fieldType_some_choice hft htype)
  have hropt : rawEntryOptions j = some (Json.jArr optionsRaw) := by
    simp only [rawEntryOptions, hentry, hloc]
  rcases hbad with hbad | ⟨opts, hopeq, hbadnd⟩
  · exact hbad ⟨optionsRaw, hropt, hne2⟩
  · rw [hropt] at hopeq
    injection hopeq with hopeq
    injection hopeq with hopeq
    subst hopeq
    exact hbadnd hnd

/-- A validated schema description has no non-choice field carrying an
options property. -/
theorem parseSchema_ok_no_nonChoiceOptions {raw : Json} {s : DatabaseSchema}
    (h : parseSchema raw = Except.ok s) : ¬ specNonChoiceOptions raw := by
  rintro ⟨l, hfe, j, hj, htype, hopt⟩
  obtain ⟨obj, hobj, -, -, fieldsRaw, hfl, hpf, -, -, -, -⟩ := parseSchema_ok h
  rw [rawFieldEntries_of_ok hobj hfl] at hfe
  injection hfe with hfe
  subst hfe
  obtain ⟨f, -, n, hokf⟩ := forall₂_exists_right (parseFieldsAux_ok fieldsRaw 0 s.fields hpf) j hj
  obtain ⟨entry, hentry, -, -, hft, -, hplain⟩ := parseField_ok hokf
  simp only [rawEntryTypeStr, hentry] at htype
  have hfc : f.type ≠ FieldType.choice := by
    intro hch
    rw [hch] at hft
    exact htype (fieldTypeOfString_eq_choice hft)
  obtain ⟨hnone, -⟩ := hplain hfc
  have : rawEntryOptions j = none := by
    simp only [rawEntryOptions, hentry, hnone]
  exact hopt this

/-- A validated schema description has no non-blank primaryKey that fails to
reference a declared field. -/
theorem parseSchema_ok_no_badPrimaryKey {raw : Json} {s : DatabaseSchema}
    (h : parseSchema raw = Except.ok s) : ¬ specBadPrimaryKey raw := by
  rintro ⟨obj0, hobj0, s0, hpkp, htrim, hmem⟩
  obtain ⟨obj, hobj, -, -, fieldsRaw, hfl, hpf, -, -, hpkmiss, -⟩ := parseSchema_ok h
  rw [hobj] at hobj0
  injection hobj0 with hobj0
  subst hobj0
  have hpks : optStrPropTrimmed obj "primaryKey" = some (jsTrim s0) := by
    simp only [optStrPropTrimmed, hpkp]
  rw [hpks] at hpkmiss
  simp only [pkMissing] at hpkmiss
  cases hfind : s.fields.find? (fun f => f.name = jsTrim s0) with
  | none =>
      rw [hfind] at hpkmiss
      simp [bne_iff_ne, htrim] at hpkmiss
  | some f0 =>
      have hp := List.find?_some hfind
      have hf0name : f0.name = jsTrim s0 := by simpa using hp
      have hf0mem : f0 ∈ s.fields := List.mem_of_find?_eq_some hfind
      rw [rawFieldEntries_of_ok hobj hfl] at hmem
      simp only at hmem
      apply hmem
      rw [← parseFieldsAux_names (parseFieldsAux_ok fieldsRaw 0 s.fields hpf), ← hf0name]
      exact List.mem_map_of_mem (fun f => f.name) hf0mem

/-- A validated schema description does not resolve to the reserved name. -/
theorem parseSchema_ok_no_reservedName {raw : Json} {s : DatabaseSchema}
    (h : parseSchema raw = Except.ok s) : ¬ specReservedName raw := by
  rintro ⟨obj0, hobj0, hmeta⟩
  obtain ⟨obj, hobj, -, hres, -⟩ := parseSchema_ok h
  rw [hobj] at hobj0
  injection hobj0 with hobj0
  subst hobj0
  exact hres hmeta

/-- C6 (amended): every schema description with a duplicate field name, a
choice field with zero or duplicate options, a non-choice field carrying
options, a primaryKey that is a non-blank string referencing no declared
field, or a name equal to the reserved metadata name, fails validation; on
the canonical descriptions of each family the error message identifies the
offending field or name. -/
theorem parseSchema_rejection_set :
    (∀ raw, specDupFieldName raw ∨ specChoiceBadOptions raw ∨ specNonChoiceOptions raw ∨
        specBadPrimaryKey raw ∨ specReservedName raw →
      ∀ s, parseSchema raw ≠ Except.ok s) ∧
    parseSchema exDupName = Except.error "Schema contains duplicate field name \x27a\x27." ∧
    parseSchema exChoiceEmpty
      = Except.error "Schema field \x27c\x27 requires a non-empty options array." ∧
    parseSchema exChoiceDup = Except.error "Schema field \x27c\x27 has duplicate option \x27a\x27." ∧
    parseSchema exNonChoiceOptions
      = Except.error "Schema field \x27t\x27 has options but is not of type \x27choice\x27." ∧
    parseSchema exBadPk = Except.error "Schema primaryKey \x27b\x27 is not defined in fields." ∧
    parseSchema exReserved
      = Except.error "Schema name \x27__reqman\x27 is reserved for Reqman metadata." := by
  refine ⟨?_, rfl, rfl, rfl, rfl, rfl, rfl⟩
  intro raw hdef s hok
  rcases hdef with hd | hd | hd | hd | hd
  · exact parseSchema_ok_no_dupName hok hd
  · exact parseSchema_ok_no_badChoice hok hd
  · exact parseSchema_ok_no_nonChoiceOptions hok hd
  · exact parseSchema_ok_no_badPrimaryKey hok hd
  · exact parseSchema_ok_no_reservedName hok hd

/-- C6 (counterexample): a schema description whose primaryKey is set to a
whitespace-only string matches no declared field name (the only declared
field is a), yet validation succeeds, storing primaryKey "". -/
theorem parseSchema_blank_primaryKey_cex :
    parseSchema pkBlankRaw
      = Except.ok ⟨"records", [⟨"a", FieldType.text, none, none, none⟩], some "", none⟩ ∧
    (∃ obj, jsObjEntries pkBlankRaw = some obj ∧
      lookupKey obj "primaryKey" = some (Json.jStr "  ")) ∧
    rawFieldEntries pkBlankRaw = some [exFieldText "a"] ∧
    (exFieldText "a" :: []).map rawEntryName = ["a"] ∧
    jsTrim "  " ≠ "a" ∧ "  " ≠ "a" := by
  refine ⟨rfl, ⟨_, rfl, rfl⟩, rfl, rfl, by decide, by decide⟩

/-- C10: a successful validation relates every raw choice entry to its
validated field: the raw options are an array whose element trims are
non-empty and duplicate-free, and the stored options are exactly those
trimmed strings; on concrete inputs, a whitespace-only option and two options
equal after trimming are rejected with identifying messages, and untrimmed
options are stored trimmed. -/
theorem parseSchema_option_trimming :
    (∀ raw s fieldsRaw, parseSchema raw = Except.ok s →
        rawFieldEntries raw = some fieldsRaw →
        List.Forall₂ (fun j f => rawEntryTypeStr j = "choice" →
          ∃ opts, rawEntryOptions j = some (Json.jArr opts) ∧
            f.options = some (opts.map rawOptionTrim) ∧
            (∀ o ∈ opts, rawOptionTrim o ≠ "") ∧
            (opts.map rawOptionTrim).Nodup) fieldsRaw s.fields) ∧
    parseSchema exChoiceTrimDup = Except.error "Schema field \x27c\x27 has duplicate option \x27a\x27." ∧
    parseSchema exChoiceWsOption = Except.error "Schema field \x27c\x27 has empty option at index 0." ∧
    parseSchema exChoiceTrimStore
      = Except.ok ⟨"records", [⟨"c", FieldType.choice, none, none, some ["x", "y"]⟩], none, none⟩ := by
  refine ⟨?_, rfl, rfl, rfl⟩
  intro raw s fieldsRaw hok hre
  obtain ⟨obj, hobj, -, -, fieldsRaw2, hfl, hpf, -, -, -, -⟩ := parseSchema_ok hok
  rw [rawFieldEntries_of_ok hobj hfl] at hre
  injection hre with hre
  subst hre
  refine List.Forall₂.imp ?_ (parseFieldsAux_ok fieldsRaw2 0 s.fields hpf)
  intro j f hr htype
  obtain ⟨n, hokf⟩ := hr
  obtain ⟨entry, hentry, -, -, hft, hchoice, -⟩ := parseField_ok hokf
  simp only [rawEntryTypeStr, hentry] at htype
  obtain ⟨optionsRaw, hloc, -, hopts, hstrs, hnd⟩ := hchoice (fieldType_some_choice hft htype)
  refine ⟨optionsRaw, ?_, hopts, ?_, hnd⟩
  · simp only [rawEntryOptions, hentry, hloc]
  · intro o ho
    obtain ⟨s0, hs0, hs0ne⟩ := hstrs o ho
    subst hs0
    exact hs0ne

theorem loadSchemaFromDatabase_version_gate
    (data : Doc) (meta : List (String × Value)) (dbPath : String)
    (hmeta : lookupKey data REQMAN_META_TABLE = some (Value.vTable meta)) :
    (∀ v : Int, lookupKey meta REQMAN_SCHEMA_VERSION_KEY = some (Value.vNum v) → v ≠ 1 →
      ∀ jsonParse, loadSchemaFromDatabase jsonParse dbPath data
        = Except.error ("Database \x27" ++ dbPath
            ++ "\x27 has unsupported embedded schema_version=" ++ toString v ++ ".")) ∧
    (∀ w, lookupKey meta REQMAN_SCHEMA_VERSION_KEY = some w → (∀ v : Int, w ≠ Value.vNum v) →
      ∀ jsonParse, loadSchemaFromDatabase jsonParse dbPath data
        = Except.error ("Database \x27" ++ dbPath
            ++ "\x27 has invalid embedded schema version metadata.")) := by
  constructor
  · intro v hv hne jsonParse
    unfold loadSchemaFromDatabase
    simp only [hmeta, hv]
    have hne2 : v ≠ REQMAN_SCHEMA_VERSION := hne
    rw [if_pos hne2]
  · intro w hw hnum jsonParse
    cases w with
    | vNum n => exact absurd rfl (hnum n)
    | vStr s =>
        unfold loadSchemaFromDatabase
        simp only [hmeta, hw]
    | vBool b =>
        unfold loadSchemaFromDatabase
        simp only [hmeta, hw]
    | vArr items =>
        unfold loadSchemaFromDatabase
        simp only [hmeta, hw]
    | vTable entries =>
        unfold loadSchemaFromDatabase
        simp only [hmeta, hw]

/-- C3 (witness): a document embedding schema_version 2 is refused with the
version-mismatch message, under a parser that would reject everything — the
parser is never consulted. -/
theorem loadSchemaFromDatabase_version_gate_witness :
    loadSchemaFromDatabase (fun s => Except.error s) "db.toml"
      [(REQMAN_META_TABLE, Value.vTable [(REQMAN_SCHEMA_VERSION_KEY, Value.vNum 2),
        (REQMAN_SCHEMA_JSON_KEY, Value.vStr "\x7b\x7d")])]
      = Except.error "Database \x27db.toml\x27 has unsupported embedded schema_version=2." :=
  (loadSchemaFromDatabase_version_gate
    [(REQMAN_META_TABLE, Value.vTable [(REQMAN_SCHEMA_VERSION_KEY, Value.vNum 2),
      (REQMAN_SCHEMA_JSON_KEY, Value.vStr "\x7b\x7d")])]
    [(REQMAN_SCHEMA_VERSION_KEY, Value.vNum 2), (REQMAN_SCHEMA_JSON_KEY, Value.vStr "\x7b\x7d")]
    "db.toml" rfl).1 2 rfl (by decide) (fun s => Except.error s)

/-- C9: a reserved metadata section that is an object with no schema_version
key at all is not a version mismatch: when schema_json is a string with a
non-empty trim that parses to a schema the validator accepts, extraction
succeeds with that schema. -/
theorem loadSchemaFromDatabase_missing_version_ok
    (data : Doc) (meta : List (String × Value)) (dbPath : String) (sj : String)
    (jsonParse : String → Except String Json) (j : Json) (s : DatabaseSchema)
    (hmeta : lookupKey data REQMAN_META_TABLE = some (Value.vTable meta))
    (hver : lookupKey meta REQMAN_SCHEMA_VERSION_KEY = none)
    (hsj : lookupKey meta REQMAN_SCHEMA_JSON_KEY = some (Value.vStr sj))
    (htrim : jsTrim sj ≠ "")
    (hparse : jsonParse (jsTrim sj) = Except.ok j)
    (hschema : parseSchema j = Except.ok s) :
    loadSchemaFromDatabase jsonParse dbPath data = Except.ok s := by
  unfold loadSchemaFromDatabase loadSchemaJson
  simp only [hmeta, hver, hsj]
  rw [if_neg htrim]
  simp only [hparse]
  exact hschema

/-- C9 (witness): a document with no version key and an embedded schema_json
parsing to a one-field schema loads successfully. -/
theorem loadSchemaFromDatabase_missing_version_ok_witness :
    loadSchemaFromDatabase
      (fun _ => Except.ok (Json.jObj [("fields", Json.jArr [exFieldText "a"])]))
      "db.toml"
      [(REQMAN_META_TABLE, Value.vTable [(REQMAN_SCHEMA_JSON_KEY, Value.vStr "x")])]
      = Except.ok ⟨"records", [⟨"a", FieldType.text, none, none, none⟩], none, none⟩ :=
  loadSchemaFromDatabase_missing_version_ok
    [(REQMAN_META_TABLE, Value.vTable [(REQMAN_SCHEMA_JSON_KEY, Value.vStr "x")])]
    [(REQMAN_SCHEMA_JSON_KEY, Value.vStr "x")]
    "db.toml" "x"
    (fun _ => Except.ok (Json.jObj [("fields", Json.jArr [exFieldText "a"])]))
    (Json.jObj [("fields", Json.jArr [exFieldText "a"])])
    ⟨"records", [⟨"a", FieldType.text, none, none, none⟩], none, none⟩
    rfl rfl rfl (by decide) rfl rfl

/-- Lookup over an appended list checks the front first. -/
theorem lookupKey_append {α : Type} (l1 l2 : List (String × α)) (k : String) :
    lookupKey (l1 ++ l2) k
      = (match lookupKey l1 k with
         | some v => some v
         | none => lookupKey l2 k) := by
  induction l1 with
  | nil => rfl
  | cons hd t ih =>
      obtain ⟨k0, v0⟩ := hd
      by_cases hk : k0 = k
      · simp [lookupKey, hk]
      · simp [lookupKey, hk, ih]

/-- Writing an absent key appends it at the end (JavaScript property
insertion order). -/
theorem setKey_eq_append {α : Type} (l : List (String × α)) (k : String) (v : α)
    (h : lookupKey l k = none) : setKey l k v = l ++ [(k, v)] := by
  induction l with
  | nil => rfl
  | cons hd t ih =>
      obtain ⟨k0, v0⟩ := hd
      by_cases hk : k0 = k
      · simp [lookupKey, hk] at h
      · simp only [lookupKey, if_neg hk] at h
        simp [setKey, hk, ih h]

/-- The error list of the coercion loop is the in-order concatenation of the
per-field error lists: every declared field is processed, with no
short-circuit on failure. -/
theorem buildAux_errors (jsNum : String → Option Int) (values : List (String × FormValue)) :
    ∀ (fs : List FieldSchema) (record : Rec) (errors : List String),
      (buildAux jsNum values fs record errors).2
        = errors ++ (fs.map (fun f => (coerceField jsNum values f).2)).flatten := by
  intro fs
  induction fs with
  | nil => intro record errors; simp [buildAux]
  | cons f rest ih =>
      intro record errors
      cases hc : coerceField jsNum values f with
      | mk o errs =>
          cases o with
          | some v =>
              simp only [buildAux, hc, ih, List.map_cons, List.flatten_cons, List.append_assoc]
          | none =>
              simp only [buildAux, hc, ih, List.map_cons, List.flatten_cons, List.append_assoc]

/-- The record of the coercion loop, when the declared field names are
distinct and none is already present, is the accumulator followed by the
per-field assignments in declaration order. -/
theorem buildAux_record (jsNum : String → Option Int) (values : List (String × FormValue)) :
    ∀ (fs : List FieldSchema) (record : Rec) (errors : List String),
      (fs.map (fun f => f.name)).Nodup →
      (∀ g ∈ fs, lookupKey record g.name = none) →
      (buildAux jsNum values fs record errors).1
        = record ++ fs.filterMap
            (fun f => ((coerceField jsNum values f).1).map (fun v => (f.name, v))) := by
  intro fs
  induction fs with
  | nil => intro record errors _ _; simp [buildAux]
  | cons f rest ih =>
      intro record errors hnd hdisj
      have hndrest : (rest.map (fun f => f.name)).Nodup := (List.nodup_cons.mp hnd).2
      have hfnotin : f.name ∉ rest.map (fun f => f.name) := (List.nodup_cons.mp hnd).1
      cases hc : coerceField jsNum values f with
      | mk o errs =>
          cases o with
          | some v =>
              have hset : setKey record f.name v = record ++ [(f.name, v)] :=
                setKey_eq_append record f.name v (hdisj f (List.mem_cons_self f rest))
              have hdisj2 : ∀ g ∈ rest, lookupKey (record ++ [(f.name, v)]) g.name = none := by
                intro g hg
                rw [lookupKey_append, hdisj g (List.mem_cons_of_mem f hg)]
                have hne : f.name ≠ g.name := fun he => hfnotin (he ▸ List.mem_map_of_mem _ hg)
                simp [lookupKey, hne]
              simp only [buildAux, hc, hset, ih (record ++ [(f.name, v)]) (errors ++ errs)
                hndrest hdisj2, List.filterMap_cons, Option.map_some]
              simp [List.append_assoc]
          | none =>
              simp only [buildAux, hc,
                ih record (errors ++ errs) hndrest
                  (fun g hg => hdisj g (List.mem_cons_of_mem f hg)),
                List.filterMap_cons, Option.map_none]
              simp [hc]

/-- No assignment in the coercion output carries a key outside the declared
field names. -/
theorem lookup_assignments_not_mem (jsNum : String → Option Int)
    (values : List (String × FormValue)) :
    ∀ (fs : List FieldSchema) (key : String),
      key ∉ fs.map (fun g => g.name) →
      lookupKey (fs.filterMap
        (fun g => ((coerceField jsNum values g).1).map (fun v => (g.name, v)))) key = none := by
  intro fs
  induction fs with
  | nil => intro key _; rfl
  | cons g rest ih =>
      intro key hk
      have hkg : g.name ≠ key := fun he => hk (by rw [← he]; exact List.mem_cons_self _ _)
      have hkrest : key ∉ rest.map (fun g => g.name) :=
        fun hmem => hk (List.mem_cons_of_mem _ hmem)
      cases hc : (coerceField jsNum values g).1 with
      | some v =>
          simp only [List.filterMap_cons, hc, Option.map_some, lookupKey, if_neg hkg]
          exact ih key hkrest
      | none =>
          simp only [List.filterMap_cons, hc, Option.map_none]
          exact ih key hkrest

/-- A field the coercion does not assign is absent from the assignment list,
given distinct field names. -/
theorem lookup_assignments_none (jsNum : String → Option Int)
    (values : List (String × FormValue)) :
    ∀ (fs : List FieldSchema) (f : FieldSchema),
      (fs.map (fun g => g.name)).Nodup →
      f ∈ fs →
      (coerceField jsNum values f).1 = none →
      lookupKey (fs.filterMap
        (fun g => ((coerceField jsNum values g).1).map (fun v => (g.name, v)))) f.name = none := by
  intro fs
  induction fs with
  | nil => intro f _ hf _; cases hf
  | cons g rest ih =>
      intro f hnd hf hnone
      have hndrest : (rest.map (fun g => g.name)).Nodup := (List.nodup_cons.mp hnd).2
      have hgnotin : g.name ∉ rest.map (fun g => g.name) := (List.nodup_cons.mp hnd).1
      rcases List.mem_cons.mp hf with hf | hf
      · subst hf
        simp only [List.filterMap_cons, hnone, Option.map_none]
        exact lookup_assignments_not_mem jsNum values rest f.name hgnotin
      · have hne : g.name ≠ f.name :=
          fun he => hgnotin (he ▸ List.mem_map_of_mem _ hf)
        cases hc : (coerceField jsNum values g).1 with
        | some v =>
            simp only [List.filterMap_cons, hc, Option.map_some, lookupKey, if_neg hne]
            exact ih f hndrest hf hnone
        | none =>
            simp only [List.filterMap_cons, hc, Option.map_none]
            exact ih f hndrest hf hnone

/-- Each field iteration of the coercion either appends no error, or appends
exactly one message and makes no assignment. -/
theorem coerceField_spec (jsNum : String → Option Int) (values : List (String × FormValue))
    (f : FieldSchema) :
    (coerceField jsNum values f).2 = [] ∨
    ((coerceField jsNum values f).1 = none ∧ ∃ msg, (coerceField jsNum values f).2 = [msg]) := by
  unfold coerceField
  by_cases hb : f.type = FieldType.boolean
  · rw [if_pos hb]
    exact Or.inl rfl
  · rw [if_neg hb]
    by_cases hch : f.type = FieldType.choice
    · rw [if_pos hch]
      by_cases hemp : rawTrimmed (lookupKey values f.name) = ""
      · rw [if_pos hemp]
        by_cases hreq : f.required = some true
        · rw [if_pos hreq]
          exact Or.inr ⟨rfl, _, rfl⟩
        · rw [if_neg hreq]
          exact Or.inl rfl
      · rw [if_neg hemp]
        by_cases hmem : (f.options.getD []).contains (rawTrimmed (lookupKey values f.name)) = true
        · rw [if_pos hmem]
          exact Or.inl rfl
        · rw [if_neg hmem]
          exact Or.inr ⟨rfl, _, rfl⟩
    · rw [if_neg hch]
      by_cases hemp : rawTrimmed (lookupKey values f.name) = ""
      · rw [if_pos hemp]
        by_cases hreq : f.required = some true
        · rw [if_pos hreq]
          exact Or.inr ⟨rfl, _, rfl⟩
        · rw [if_neg hreq]
          exact Or.inl rfl
      · rw [if_neg hemp]
        by_cases hnum : f.type = FieldType.number
        · rw [if_pos hnum]
          cases hjn : jsNum (rawTrimmed (lookupKey values f.name)) with
          | none =>
              simp only [hjn]
              exact Or.inr ⟨trivial, _, rfl⟩
          | some n =>
              simp only [hjn]
              exact Or.inl trivial
        · rw [if_neg hnum]
          by_cases hdate : f.type = FieldType.date
          · rw [if_pos hdate]
            by_cases hvd : isValidDate (rawTrimmed (lookupKey values f.name)) = true
            · rw [if_pos hvd]
              exact Or.inl rfl
            · rw [if_neg hvd]
              exact Or.inr ⟨rfl, _, rfl⟩
          · rw [if_neg hdate]
            by_cases htime : f.type = FieldType.time
            · rw [if_pos htime]
              by_cases hvt : isValidTime (rawTrimmed (lookupKey values f.name)) = true
              · rw [if_pos hvt]
                exact Or.inl rfl
              · rw [if_neg hvt]
                exact Or.inr ⟨rfl, _, rfl⟩
            · rw [if_neg htime]
              exact Or.inl rfl

/-- C4: the coercion processes every declared field in declaration order
without short-circuiting — the error list is the concatenation of the
per-field error lists and the record the in-order sequence of per-field
assignments; a per-field coercion failure appends exactly one message and
assigns nothing; a non-boolean field whose raw value is empty after trimming
with required unset contributes neither an assignment nor an error; and a
field with no assignment is absent from the resulting record. -/
theorem buildRecordFromForm_coercion :
    (∀ (jsNum : String → Option Int) (values : List (String × FormValue))
        (schema : DatabaseSchema),
      (buildRecordFromForm jsNum schema values).2
        = (schema.fields.map (fun f => (coerceField jsNum values f).2)).flatten) ∧
    (∀ (jsNum : String → Option Int) (values : List (String × FormValue))
        (schema : DatabaseSchema),
      (schema.fields.map (fun f => f.name)).Nodup →
      (buildRecordFromForm jsNum schema values).1
        = schema.fields.filterMap
            (fun f => ((coerceField jsNum values f).1).map (fun v => (f.name, v)))) ∧
    (∀ (jsNum : String → Option Int) (values : List (String × FormValue)) (f : FieldSchema),
      (coerceField jsNum values f).2 ≠ [] →
      (coerceField jsNum values f).1 = none ∧ (coerceField jsNum values f).2.length = 1) ∧
    (∀ (jsNum : String → Option Int) (values : List (String × FormValue)) (f : FieldSchema),
      f.type ≠ FieldType.boolean →
      rawTrimmed (lookupKey values f.name) = "" →
      f.required = none →
      coerceField jsNum values f = (none, [])) ∧
    (∀ (jsNum : String → Option Int) (values : List (String × FormValue))
        (schema : DatabaseSchema) (f : FieldSchema),
      (schema.fields.map (fun g => g.name)).Nodup →
      f ∈ schema.fields →
      (coerceField jsNum values f).1 = none →
      lookupKey (buildRecordFromForm jsNum schema values).1 f.name = none) := by
  refine ⟨?_, ?_, ?_, ?_, ?_⟩
  · intro jsNum values schema
    simpa using buildAux_errors jsNum values schema.fields [] []
  · intro jsNum values schema hnd
    simpa using buildAux_record jsNum values schema.fields [] [] hnd (by simp [lookupKey])
  · intro jsNum values f herr
    rcases coerceField_spec jsNum values f with hsp | ⟨h1, msg, h2⟩
    · exact absurd hsp herr
    · exact ⟨h1, by rw [h2]; rfl⟩
  · intro jsNum values f hb hemp hreq
    unfold coerceField
    rw [if_neg hb]
    by_cases hch : f.type = FieldType.choice
    · rw [if_pos hch, if_pos hemp, hreq]
      rfl
    · rw [if_neg hch, if_pos hemp, hreq]
      rfl
  · intro jsNum values schema f hnd hf hnone
    have h2 : (buildRecordFromForm jsNum schema values).1
        = schema.fields.filterMap
            (fun g => ((coerceField jsNum values g).1).map (fun v => (g.name, v))) := by
      simpa using buildAux_record jsNum values schema.fields [] [] hnd (by simp [lookupKey])
    rw [h2]
    exact lookup_assignments_none jsNum values schema.fields f hnd hf hnone

/-- Every month length lies between 28 and 31. -/
theorem daysInMonth_bounds (y m0 : Int) :
    28 ≤ daysInMonth y m0 ∧ daysInMonth y m0 ≤ 31 := by
  unfold daysInMonth
  split_ifs <;> omega

/-- A day already inside its month is a fixpoint of the normalization. -/
theorem dayNorm_fix (n : Nat) (y m0 d : Int) (h1 : 1 ≤ d) (h2 : d ≤ daysInMonth y m0) :
    dayNorm n y m0 d = (y, m0, d) := by
  cases n with
  | zero => rfl
  | succ n =>
      unfold dayNorm
      rw [if_neg (by omega), if_neg (by omega)]

/-- One-step unfolding of the normalization. -/
theorem dayNorm_succ (n : Nat) (y m0 d : Int) :
    dayNorm (n + 1) y m0 d =
      if d > daysInMonth y m0 then
        (if m0 = 11 then dayNorm n (y + 1) 0 (d - daysInMonth y m0)
         else dayNorm n y (m0 + 1) (d - daysInMonth y m0))
      else if d < 1 then
        (if m0 = 0 then dayNorm n (y - 1) 11 (d + daysInMonth (y - 1) 11)
         else dayNorm n y (m0 - 1) (d + daysInMonth y (m0 - 1)))
      else (y, m0, d) := rfl

/-- The normalization keeps the month inside 0..11. -/
theorem dayNorm_month_range :
    ∀ (n : Nat) (y m0 d : Int), 0 ≤ m0 → m0 ≤ 11 →
      0 ≤ (dayNorm n y m0 d).2.1 ∧ (dayNorm n y m0 d).2.1 ≤ 11 := by
  intro n
  induction n with
  | zero => intro y m0 d h0 h11; exact ⟨h0, h11⟩
  | succ n ih =>
      intro y m0 d h0 h11
      unfold dayNorm
      by_cases hgt : d > daysInMonth y m0
      · rw [if_pos hgt]
        by_cases hm : m0 = 11
        · rw [if_pos hm]
          exact ih _ _ _ (by omega) (by omega)
        · rw [if_neg hm]
          exact ih _ _ _ (by omega) (by omega)
      · rw [if_neg hgt]
        by_cases hlt : d < 1
        · rw [if_pos hlt]
          by_cases hm : m0 = 0
          · rw [if_pos hm]
            exact ih _ _ _ (by omega) (by omega)
          · rw [if_neg hm]
            exact ih _ _ _ (by omega) (by omega)
        · rw [if_neg hlt]
          exact ⟨h0, h11⟩

/-- The normalized day strictly shrinks unless the input was already in
range (or the fuel is spent without a step). -/
theorem dayNorm_day_lt :
    ∀ (n : Nat) (y m0 d : Int), 1 ≤ d →
      ((dayNorm n y m0 d).2.2 < d ∨
        (dayNorm n y m0 d = (y, m0, d) ∧ (n = 0 ∨ d ≤ daysInMonth y m0))) := by
  intro n
  induction n with
  | zero => intro y m0 d h1; exact Or.inr ⟨rfl, Or.inl rfl⟩
  | succ n ih =>
      intro y m0 d h1
      unfold dayNorm
      by_cases hgt : d > daysInMonth y m0
      · rw [if_pos hgt]
        have h28 := (daysInMonth_bounds y m0).1
        by_cases hm : m0 = 11
        · rw [if_pos hm]
          rcases ih (y + 1) 0 (d - daysInMonth y m0) (by omega) with hlt | ⟨heq, -⟩
          · exact Or.inl (by omega)
          · rw [heq]
            exact Or.inl (by simp; omega)
        · rw [if_neg hm]
          rcases ih y (m0 + 1) (d - daysInMonth y m0) (by omega) with hlt | ⟨heq, -⟩
          · exact Or.inl (by omega)
          · rw [heq]
            exact Or.inl (by simp; omega)
      · rw [if_neg hgt, if_neg (by omega)]
        exact Or.inr ⟨rfl, Or.inr (by omega)⟩

/-- The normalization moves the year by at most one per unit of fuel. -/
theorem dayNorm_year_bound :
    ∀ (n : Nat) (y m0 d : Int),
      y - (n : Int) ≤ (dayNorm n y m0 d).1 ∧ (dayNorm n y m0 d).1 ≤ y + (n : Int) := by
  intro n
  induction n with
  | zero =>
      intro y m0 d
      unfold dayNorm
      constructor <;> simp
  | succ n ih =>
      intro y m0 d
      unfold dayNorm
      by_cases hgt : d > daysInMonth y m0
      · rw [if_pos hgt]
        by_cases hm : m0 = 11
        · rw [if_pos hm]
          have := ih (y + 1) 0 (d - daysInMonth y m0)
          constructor <;> omega
        · rw [if_neg hm]
          have := ih y (m0 + 1) (d - daysInMonth y m0)
          constructor <;> omega
      · rw [if_neg hgt]
        by_cases hlt : d < 1
        · rw [if_pos hlt]
          by_cases hm : m0 = 0
          · rw [if_pos hm]
            have := ih (y - 1) 11 (d + daysInMonth (y - 1) 11)
            constructor <;> omega
          · rw [if_neg hm]
            have := ih y (m0 - 1) (d + daysInMonth y (m0 - 1))
            constructor <;> omega
        · rw [if_neg hlt]
          constructor <;> omega

/-- The round-trip check of the date validator, characterized over the
two-digit component ranges the YYYY-MM-DD shape allows: it accepts exactly
the calendar-correct triples whose year has at least three digits — years
0..99 are remapped to 1900..1999 by MakeFullYear and can never read back
equal. -/
theorem isValidYmd_iff {y m d : Nat} (hy : y ≤ 9999) (hm : m ≤ 99) (hd : d ≤ 99) :
    isValidYmd y m d = true ↔ (100 ≤ y ∧ calendarCorrect y m d = true) := by
  simp only [isValidYmd, decide_eq_true_eq, calendarCorrect, Bool.and_eq_true,
    decide_eq_true_eq]
  unfold jsUtcCivil
  by_cases h99 : y ≤ 99
  · -- two-digit years: MakeFullYear remaps, the year never reads back
    have hmk : makeFullYear (y : Int) = 1900 + (y : Int) := by
      unfold makeFullYear
      rw [if_pos (by omega)]
    rw [hmk]
    constructor
    · intro heq
      have hyear := congrArg (fun t => t.1) heq
      simp only [] at hyear
      have hb := dayNorm_year_bound 12 (1900 + (y : Int) + ((m : Int) - 1) / 12)
        (((m : Int) - 1) % 12) (d : Int)
      omega
    · rintro ⟨h100, -⟩
      omega
  · -- years with at least three digits read back through MakeFullYear
    have hmk : makeFullYear (y : Int) = (y : Int) := by
      unfold makeFullYear
      rw [if_neg (by omega)]
    rw [hmk]
    by_cases hmok : 1 ≤ m ∧ m ≤ 12
    · -- month in range: the month part normalizes to itself
      have hdiv : ((m : Int) - 1) / 12 = 0 := by omega
      have hmod : ((m : Int) - 1) % 12 = (m : Int) - 1 := by omega
      rw [hdiv, hmod, add_zero]
      have hlen28 := (daysInMonth_bounds (y : Int) ((m : Int) - 1)).1
      by_cases hd0 : (d : Int) < 1
      · -- day 00: one backward step lands on a day of at least 28
        by_cases hmz : (m : Int) - 1 = 0
        · have h28 := (daysInMonth_bounds ((y : Int) - 1) 11).1
          have hcomp : dayNorm 12 (y : Int) ((m : Int) - 1) (d : Int)
              = ((y : Int) - 1, 11, (d : Int) + daysInMonth ((y : Int) - 1) 11) := by
            rw [show (12 : Nat) = 11 + 1 from rfl, dayNorm_succ,
              if_neg (by omega), if_pos (by omega), if_pos hmz]
            exact dayNorm_fix 11 _ _ _ (by omega) (by omega)
          rw [hcomp]
          constructor
          · intro heq
            have hday := congrArg (fun t => t.2.2) heq
            simp only [] at hday
            omega
          · rintro ⟨-, ⟨⟨-, -⟩, hd1⟩, -⟩
            omega
        · have h28b := (daysInMonth_bounds (y : Int) ((m : Int) - 1 - 1)).1
          have hcomp : dayNorm 12 (y : Int) ((m : Int) - 1) (d : Int)
              = ((y : Int), (m : Int) - 1 - 1,
                  (d : Int) + daysInMonth (y : Int) ((m : Int) - 1 - 1)) := by
            rw [show (12 : Nat) = 11 + 1 from rfl, dayNorm_succ,
              if_neg (by omega), if_pos (by omega), if_neg hmz]
            exact dayNorm_fix 11 _ _ _ (by omega) (by omega)
          rw [hcomp]
          constructor
          · intro heq
            have hday := congrArg (fun t => t.2.2) heq
            simp only [] at hday
            omega
          · rintro ⟨-, ⟨⟨-, -⟩, hd1⟩, -⟩
            omega
      · by_cases hdlen : (d : Int) ≤ daysInMonth (y : Int) ((m : Int) - 1)
        · -- calendar-correct: the normalization is the identity
          rw [dayNorm_fix 12 _ _ _ (by omega) (by omega)]
          constructor
          · intro _
            exact ⟨by omega, ⟨⟨by omega, by omega⟩, by omega⟩, by omega⟩
          · intro _
            rfl
        · -- day too large: the day strictly shrinks, so it cannot read back
          constructor
          · intro heq
            have hday := congrArg (fun t => t.2.2) heq
            simp only [] at hday
            rcases dayNorm_day_lt 12 (y : Int) ((m : Int) - 1) (d : Int) (by omega)
              with hlt | ⟨-, hor⟩
            · omega
            · rcases hor with h0 | hle
              · cases h0
              · omega
          · rintro ⟨-, -, hcal⟩
            omega
    · -- month outside 1..12: the normalized month is 0..11 but m - 1 is not
      constructor
      · intro heq
        have hmonth := congrArg (fun t => t.2.1) heq
        simp only [] at hmonth
        have hmr := dayNorm_month_range 12 ((y : Int) + ((m : Int) - 1) / 12)
          (((m : Int) - 1) % 12) (d : Int) (by omega) (by omega)
        omega
      · rintro ⟨-, ⟨⟨hm1, hm2⟩, -⟩, -⟩
        exact absurd ⟨hm1, hm2⟩ hmok

/-- Bounds the YYYY-MM-DD shape imposes on the parsed components. -/
theorem parseYmdChars_bounds : ∀ {l : List Char} {y m d : Nat},
    parseYmdChars l = some (y, m, d) → y ≤ 9999 ∧ m ≤ 99 ∧ d ≤ 99 := by
  intro l y m d h
  unfold parseYmdChars at h
  split at h
  · next a b c d0 h1 e f h2 g k =>
      split at h
      · next hcond =>
          simp only [Bool.and_eq_true, decide_eq_true_eq] at hcond
          injection h with h
          obtain ⟨⟨⟨⟨⟨⟨⟨⟨⟨ha, hb⟩, hc⟩, hd0⟩, -⟩, he⟩, hf⟩, -⟩, hg⟩, hk⟩ := hcond
          have hy2 : y = ((digitVal a * 10 + digitVal b) * 10 + digitVal c) * 10 + digitVal d0 :=
            (congrArg Prod.fst h).symm
          have hm2 : m = digitVal e * 10 + digitVal f :=
            (congrArg (fun t => t.2.1) h).symm
          have hd2 : d = digitVal g * 10 + digitVal k :=
            (congrArg (fun t => t.2.2) h).symm
          unfold isDigitChar at ha hb hc hd0 he hf hg hk
          simp only [Bool.and_eq_true, decide_eq_true_eq] at ha hb hc hd0 he hf hg hk
          unfold digitVal at hy2 hm2 hd2
          omega
      · cases h
  · cases h

/-- C5 (counterexample): the string 0099-01-01 has shape YYYY-MM-DD and
denotes a calendar-correct date, but the date validator rejects it — Date.UTC
remaps two-digit years through MakeFullYear, so the round-trip reads back
1999, not 99. -/
theorem isValidDate_calendar_cex :
    denotesCalendarDate "0099-01-01" = true ∧ isValidDate "0099-01-01" = false := by
  decide

/-- C5 (amended): the date validator accepts exactly the strings of shape
YYYY-MM-DD whose parsed components denote a calendar-correct date with year
at least 100 (two-digit years are remapped by MakeFullYear and always fail
the round-trip); the boundary examples hold as the spec states them. -/
theorem isValidDate_characterization :
    (∀ s : String, isValidDate s = true ↔
      ∃ y m d, parseYmdChars s.data = some (y, m, d) ∧ 100 ≤ y ∧
        calendarCorrect y m d = true) ∧
    isValidDate "2024-02-29" = true ∧
    isValidDate "2023-02-29" = false ∧
    isValidDate "2024-02-30" = false := by
  refine ⟨?_, by decide, by decide, by decide⟩
  intro s
  unfold isValidDate
  cases hp : parseYmdChars s.data with
  | none =>
      show false = true ↔ _
      constructor
      · intro h
        cases h
      · rintro ⟨y, m, d, heq, -, -⟩
        cases heq
  | some t =>
      obtain ⟨y, m, d⟩ := t
      obtain ⟨hy, hm, hd⟩ := parseYmdChars_bounds hp
      show isValidYmd y m d = true ↔ _
      rw [isValidYmd_iff hy hm hd]
      constructor
      · rintro ⟨h100, hcal⟩
        exact ⟨y, m, d, rfl, h100, hcal⟩
      · rintro ⟨y2, m2, d2, heq, h100, hcal⟩
        have heq2 : (y, m, d) = (y2, m2, d2) := by
          injection heq
        injection heq2 with h1 h23
        injection h23 with h2 h3
        subst h1
        subst h2
        subst h3
        exact ⟨h100, hcal⟩

end Reqman
